import Mathlib

/-!
Shallow embedding of the rs-quality-screener repository
(rs_calculator.py, screener_engine.py, quality_analyzer.py).

Conventions of the embedding:
* a price series is a `List (Option ℚ)` of daily closes, oldest first;
  a `none` entry is a NaN close;
* a universe is a `List (ℕ × List (Option ℚ))` pairing a symbol with its
  price series (`self.price_data`, a dict with unique keys); a symbol with
  no usable data (absent key, or a `None` frame) is simply absent;
* floats are modelled as ℚ; `np.nan` is modelled as `Option.none`.
-/

namespace RSQ

/-- Embedding of `RSCalculator._calculate_period_return` (rs_calculator.py 245-277).
`end_idx = -1 - skip_recent if skip_recent > 0 else -1`, `start_idx = end_idx - period`;
a negative iloc index `-k` is valid only when `k ≤ len`, and the bare
`except` turns the out-of-range access (`len = period + skip`) into `None`. -/
def periodReturn (prices : List (Option ℚ)) (period skip : ℕ) : Option ℚ :=
  let n := prices.length
  if n < period + skip then none
  else
    let endOfs : ℕ := if 0 < skip then 1 + skip else 1
    let startOfs : ℕ := endOfs + period
    if n < startOfs then none
    else
      match prices.get? (n - startOfs), prices.get? (n - endOfs) with
      | some (some startP), some (some endP) =>
          if startP = 0 then none else some ((endP / startP - 1) * 100)
      | _, _ => none

/-- Lookup of `self.price_data[symbol]` (first entry with the key;
dict keys are unique in the source). -/
def lookupSeries (univ : List (ℕ × List (Option ℚ))) (sym : ℕ) :
    Option (List (Option ℚ)) :=
  (univ.find? (fun e => e.1 = sym)).map Prod.snd

/-- Embedding of `self._calculate_period_return(symbol, period, skip_recent)` for a symbol of
the universe: missing when the symbol has no price data. -/
def periodReturnOf (univ : List (ℕ × List (Option ℚ))) (sym : ℕ)
    (period skip : ℕ) : Option ℚ :=
  match lookupSeries univ sym with
  | none => none
  | some ps => periodReturn ps period skip

/-- The loop `for sym in self.returns.keys(): ret = self._calculate_period_return(sym, lookback, skip_recent=21)`
keeping the defined values (rs_calculator.py 144-149).  Iterating the dict's
keys and looking each key up again is iterating its entries. -/
def allReturns (univ : List (ℕ × List (Option ℚ))) (lookback : ℕ) : List ℚ :=
  univ.filterMap (fun e => periodReturn e.2 lookback 21)

/-- Embedding of `RSCalculator._calculate_rs_percentile` (rs_calculator.py 127-156). -/
def rsPercentile (univ : List (ℕ × List (Option ℚ))) (lookback : ℕ)
    (sym : ℕ) : ℚ :=
  match periodReturnOf univ sym lookback 21 with
  | none => 0
  | some stockReturn =>
    let rets := allReturns univ lookback
    if rets.length = 0 then 50
    else (((rets.filter (fun x => x < stockReturn)).length : ℚ) / rets.length) * 100

/-- A concrete 23-close series whose 1-day return with `skip_recent = 21`
is `r` percent: close 100, then `100 + r`, then 21 padding closes. -/
def mkSeries (r : ℚ) : List (Option ℚ) :=
  some 100 :: some (100 + r) :: List.replicate 21 (some 1)

/-- Five-symbol universe with long-horizon (lookback 1, skip 21) returns
10, 5, 5, −2, 8. -/
def univ5 : List (ℕ × List (Option ℚ)) :=
  [(1, mkSeries 10), (2, mkSeries 5), (3, mkSeries 5),
   (4, mkSeries (-2)), (5, mkSeries 8)]

/-- The period-return contract exactly as the spec words it: missing when the
series has fewer than `period + skip` observations or either the start or the
end close is zero or undefined; the end close sits `skip` before the latest
observation and the start close `period` further back. -/
def claimPeriodReturn (prices : List (Option ℚ)) (period skip : ℕ) : Option ℚ :=
  let n := prices.length
  if n < period + skip then none
  else
    let endC : Option ℚ :=
      if skip + 1 ≤ n then (prices.get? (n - 1 - skip)).join else none
    let startC : Option ℚ :=
      if period + skip + 1 ≤ n then (prices.get? (n - 1 - skip - period)).join else none
    match startC, endC with
    | some sp, some ep =>
        if sp = 0 ∨ ep = 0 then none else some ((ep / sp - 1) * 100)
    | _, _ => none

/-- The behaviour the code actually has: at least `period + skip + 1`
observations are required (the start index raises IndexError at exactly
`period + skip`, swallowed by the bare `except`), both closes must be
non-NaN, and only the START close is tested against zero. -/
def amendedPeriodReturn (prices : List (Option ℚ)) (period skip : ℕ) : Option ℚ :=
  let n := prices.length
  if n < period + skip + 1 then none
  else
    match (prices.get? (n - 1 - skip - period)).join, (prices.get? (n - 1 - skip)).join with
    | some sp, some ep => if sp = 0 then none else some ((ep / sp - 1) * 100)
    | _, _ => none

/-- One-member universe whose sole symbol has no price history at all:
no member has a defined long-horizon return. -/
def univNone : List (ℕ × List (Option ℚ)) := [(0, [])]

/-- One step of `list.sort(key=lambda x: x[1], reverse=True)`: the new element
goes before the first element whose key is not larger; among equal keys the
element already processed later in the fold (i.e. earlier in the original
list) stays first, matching Python's stable sort. -/
def insertDesc (x : ℕ × ℚ) : List (ℕ × ℚ) → List (ℕ × ℚ)
  | [] => [x]
  | h :: t => if h.2 ≤ x.2 then x :: h :: t else h :: insertDesc x t

/-- Embedding of `returns_list.sort(key=lambda x: x[1], reverse=True)` (rs_calculator.py 181). -/
def sortDesc : List (ℕ × ℚ) → List (ℕ × ℚ)
  | [] => []
  | h :: t => insertDesc h (sortDesc t)

/-- Embedding of `for i, (sym, _) in enumerate(returns_list): if sym == symbol: return i + 1`
with the final `return 999` (rs_calculator.py 184-188). -/
def rankScan (sym : ℕ) : List (ℕ × ℚ) → ℕ → ℕ
  | [], _ => 999
  | h :: t, i => if h.1 = sym then i + 1 else rankScan sym t (i + 1)

/-- The `(sym, ret)` pairs with a defined long-horizon return, in universe
order (rs_calculator.py 174-178). -/
def definedPairs (univ : List (ℕ × List (Option ℚ))) (lookback : ℕ) :
    List (ℕ × ℚ) :=
  univ.filterMap (fun e => (periodReturn e.2 lookback 21).map (fun r => (e.1, r)))

/-- Embedding of `RSCalculator._calculate_rs_rank` (rs_calculator.py 158-188). -/
def rsRank (univ : List (ℕ × List (Option ℚ))) (lookback : ℕ) (sym : ℕ) : ℕ :=
  match periodReturnOf univ sym lookback 21 with
  | none => 999
  | some _ => rankScan sym (sortDesc (definedPairs univ lookback)) 0

/-- A universe where symbol 0 has no data and symbols 1..5 have the `univ5`
returns: a small instance for the C8 witness. -/
def univ6 : List (ℕ × List (Option ℚ)) := (0, []) :: univ5

/-- 1000-member universe: symbol 0 has no data, symbols 1..999 have defined
long-horizon returns 999, 998, ..., 1 (universe order = descending returns). -/
def bigUniv : List (ℕ × List (Option ℚ)) :=
  (0, []) :: (List.range' 1 999).map (fun j => (j, mkSeries (1000 - (j:ℚ))))

/-- The defined `(symbol, return)` pair of member `j` of `bigUniv`. -/
def bigPair (j : ℕ) : ℕ × ℚ := (j, 1000 - (j:ℚ))

/-- The rows of the stock frame whose date also occurs in the benchmark frame:
`common_dates = stock_data.index.intersection(benchmark_data.index)` together
with `stock_data.loc[common_dates]`. -/
def commonRows (stock bench : List (ℕ × ℚ)) : List (ℕ × ℚ) :=
  stock.filter (fun e => (bench.find? (fun b => b.1 = e.1)).isSome)

/-- Embedding of `benchmark_data.loc[d, 'Close']`. -/
def benchClose (bench : List (ℕ × ℚ)) (d : ℕ) : ℚ :=
  ((bench.find? (fun b => b.1 = d)).map Prod.snd).getD 0

/-- Embedding of `ratio = stock_prices / bench_prices` over the common dates. -/
def ratioSeries (stock bench : List (ℕ × ℚ)) : List ℚ :=
  (commonRows stock bench).map (fun e => e.2 / benchClose bench e.1)

/-- Embedding of `ratio.rolling(window=252).mean().iloc[-1]`: the mean of the last 252
entries (only used when the list has at least 252 entries). -/
def trailingMA252 (l : List ℚ) : ℚ :=
  (l.drop (l.length - 252)).sum / 252

/-- Embedding of `RSCalculator._calculate_mansfield_rs`: fewer than 252 common dates give
missing; otherwise `((latest ratio / latest 252-day MA) − 1) × 100`, missing
when that MA is zero (`np.isnan(current_ma)` cannot arise over ℚ). -/
def mansfieldRS (stock bench : List (ℕ × ℚ)) : Option ℚ :=
  if (commonRows stock bench).length < 252 then none
  else
    let ratio := ratioSeries stock bench
    let ma := trailingMA252 ratio
    if ma = 0 then none
    else some (((ratio.getLast?.getD 0) / ma - 1) * 100)

/-- 252 stock rows on the even dates 0,2,...,502, all closes 1. -/
def stockW : List (ℕ × ℚ) := (List.range' 0 252).map (fun d => (2 * d, 1))

/-- 252 benchmark rows on the odd dates 1,3,...,503, all closes 1. -/
def benchW : List (ℕ × ℚ) := (List.range' 0 252).map (fun d => (2 * d + 1, 1))

/-!
screener_engine.py and quality_analyzer.py.
A joined screening row carries the columns the filters, the composite
scores and the signal read; option `none` is a NaN cell.  Sectors are
identifiers in ℕ; the four UI strategy strings are an enumeration.
-/
inductive Strategy where
  | rsQualityRecommended
  | pureRSAdvanced
  | rsValue
  | rsLowVolatility
deriving DecidableEq

structure Row where
  rs_percentile : Option ℚ
  roe : Option ℚ
  debt_equity : Option ℚ
  operating_margin : Option ℚ
  market_cap : Option ℚ
  sector : ℕ
  current_price : Option ℚ
  pe_ratio : Option ℚ
  quality_score : Option ℚ
  composite_score : Option ℚ
  rs_vs_nifty50 : Option ℚ
deriving DecidableEq

structure Params where
  rs_threshold : ℚ
  strategy : Strategy
  min_roe : ℚ
  max_de : ℚ
  min_margin : ℚ
  min_mcap : ℚ
  exclude_sectors : List ℕ

/-- A pandas comparison `v >= t`: False when the cell is NaN. -/
def optGe (v : Option ℚ) (t : ℚ) : Bool :=
  match v with
  | none => false
  | some x => t ≤ x

/-- A pandas comparison `v <= t`: False when the cell is NaN. -/
def optLe (v : Option ℚ) (t : ℚ) : Bool :=
  match v with
  | none => false
  | some x => x ≤ t

/-- Embedding of `self.params['strategy'] in ["RS + Quality (Recommended)", "Pure RS (Advanced)"]`. -/
def qualityGate (p : Params) : Bool :=
  p.strategy = Strategy.rsQualityRecommended || p.strategy = Strategy.pureRSAdvanced

/-- Filter 1 (screener_engine.py 38): `rs_percentile >= rs_threshold`. -/
def filter1 (p : Params) (r : Row) : Bool := optGe r.rs_percentile p.rs_threshold

def roeOk (p : Params) (r : Row) : Bool := optGe r.roe p.min_roe || r.roe.isNone

def deOk (p : Params) (r : Row) : Bool := optLe r.debt_equity p.max_de || r.debt_equity.isNone

def marginOk (p : Params) (r : Row) : Bool :=
  optGe r.operating_margin p.min_margin || r.operating_margin.isNone

/-- Filter 2 (screener_engine.py 42-57): the three quality conditions
(missing data never excludes), applied only under the two strategies. -/
def filter2 (p : Params) (r : Row) : Bool :=
  if qualityGate p then roeOk p r && deOk p r && marginOk p r else true

/-- Filter 3 (screener_engine.py 60): `market_cap >= min_mcap`. -/
def filter3 (p : Params) (r : Row) : Bool := optGe r.market_cap p.min_mcap

/-- Filter 4 (screener_engine.py 63-64): sector exclusion, skipped when the
exclusion list is empty (Python truthiness of the list). -/
def filter4 (p : Params) (r : Row) : Bool :=
  if p.exclude_sectors.isEmpty then true else !(p.exclude_sectors.contains r.sector)

/-- Filter 5 (screener_engine.py 67-68): `current_price` and `rs_percentile`
must both be present. -/
def filter5 (p : Params) (r : Row) : Bool :=
  r.current_price.isSome && r.rs_percentile.isSome

/-- Embedding of `ScreenerEngine.apply_filters` (screener_engine.py 22-72), in the exact
sequential shape of the code. -/
def applyFilters (p : Params) (df : List Row) : List Row :=
  let df1 := df.filter (fun r => optGe r.rs_percentile p.rs_threshold)
  let df2 :=
    if qualityGate p then
      ((df1.filter (fun r => roeOk p r)).filter (fun r => deOk p r)).filter
        (fun r => marginOk p r)
    else df1
  let df3 := df2.filter (fun r => optGe r.market_cap p.min_mcap)
  let df4 :=
    if p.exclude_sectors.isEmpty then df3
    else df3.filter (fun r => !(p.exclude_sectors.contains r.sector))
  (df4.filter (fun r => r.current_price.isSome)).filter
    (fun r => r.rs_percentile.isSome)

/-- The spec's experiment: the same five filters applied in the reverse
order 5, 4, 3, 2, 1. -/
def applyFiltersReversed (p : Params) (df : List Row) : List Row :=
  ((((df.filter (filter5 p)).filter (filter4 p)).filter
    (filter3 p)).filter (filter2 p)).filter (filter1 p)

/-- Embedding of `series.min()` skipping NaN: `none` on an all-NaN/empty column. -/
def listMin : List ℚ → Option ℚ
  | [] => none
  | x :: xs => some (xs.foldl (fun a b => if a ≤ b then a else b) x)

/-- Embedding of `series.max()` skipping NaN: `none` on an all-NaN/empty column. -/
def listMax : List ℚ → Option ℚ
  | [] => none
  | x :: xs => some (xs.foldl (fun a b => if a ≤ b then b else a) x)

/-- The RS + Value composite of one row of the filtered set `df`
(screener_engine.py 94-105): `pe_normalized = 100 - (pe - min)/(max - min) * 100`
then `.fillna(50)` — the normalized value is NaN (`none`) when the row's P/E
is NaN, the column is empty, or `max - min = 0` (a 0/0) — and
`composite = 0.50*rs_percentile + 0.30*pe_normalized + 0.20*quality.fillna(0)`,
NaN (`none`) exactly when `rs_percentile` is NaN. -/
def compositeRSValue (df : List Row) (r : Row) : Option ℚ :=
  let pes := df.filterMap (fun x => x.pe_ratio)
  let pe_normalized : Option ℚ :=
    match r.pe_ratio, listMin pes, listMax pes with
    | some p, some mnv, some mxv =>
        if mxv - mnv = 0 then none
        else some (100 - (p - mnv) / (mxv - mnv) * 100)
    | _, _, _ => none
  let v := pe_normalized.getD 50
  r.rs_percentile.map (fun rs =>
    0.50 * rs + 0.30 * v + 0.20 * (r.quality_score.getD 0))

/-- The value term exactly as the claim words it: the min–max normalization
of `1/pe_ratio` over the current filtered set, scaled to [0,100], defaulting
to 50 when missing. -/
def claimValueTerm (df : List Row) (r : Row) : ℚ :=
  let invs := df.filterMap (fun x => x.pe_ratio.map (fun p => 1 / p))
  match r.pe_ratio, listMin invs, listMax invs with
  | some p, some mnv, some mxv =>
      if mxv - mnv = 0 then 50 else (1 / p - mnv) / (mxv - mnv) * 100
  | _, _, _ => 50

/-- The composite the claim asserts for RS + Value. -/
def claimCompositeRSValue (df : List Row) (r : Row) : Option ℚ :=
  r.rs_percentile.map (fun rs =>
    0.50 * rs + 0.30 * claimValueTerm df r + 0.20 * (r.quality_score.getD 0))

/-- The value term the code actually computes: 100 minus the min–max
normalization of `pe_ratio` itself (reversed orientation), defaulting to 50
when the row's P/E is missing, the column has no defined P/E, or the
column's min and max coincide. -/
def amendedValueTerm (df : List Row) (r : Row) : ℚ :=
  let pes := df.filterMap (fun x => x.pe_ratio)
  match r.pe_ratio, listMin pes, listMax pes with
  | some p, some mnv, some mxv =>
      if mnv = mxv then 50 else 100 - (p - mnv) / (mxv - mnv) * 100
  | _, _, _ => 50

/-- Embedding of `ScreenerEngine._generate_signal`, WATCH/AVOID tail (screener_engine.py
156-166). -/
def watchOrAvoid (r : Row) : String :=
  let watchCount : ℕ :=
    (if optGe r.rs_percentile 70 then 1 else 0) +
    (if optGe r.quality_score 40 then 1 else 0) +
    (if optGe r.composite_score 60 then 1 else 0)
  if 2 ≤ watchCount then "WATCH" else "AVOID"

/-- Embedding of `ScreenerEngine._generate_signal` (screener_engine.py 130-166): NaN
comparisons are False, `row.get('rs_vs_nifty50', nan)` is NaN when the
column is absent. -/
def generateSignal (r : Row) : String :=
  let buyCount : ℕ :=
    (if optGe r.rs_percentile 85 then 1 else 0) +
    (if optGe r.quality_score 60 then 1 else 0) +
    (if optGe r.composite_score 75 then 1 else 0)
  if 2 ≤ buyCount then
    match r.rs_vs_nifty50 with
    | some v => if 0 < v then "BUY" else watchOrAvoid r
    | none => "BUY"
  else watchOrAvoid r

/-- Embedding of `sum(buy_conditions)` (screener_engine.py 141-145). -/
def buyCount (r : Row) : ℕ :=
  (if optGe r.rs_percentile 85 then 1 else 0) +
  (if optGe r.quality_score 60 then 1 else 0) +
  (if optGe r.composite_score 75 then 1 else 0)

/-- Embedding of `sum(watch_conditions)` (screener_engine.py 156-160). -/
def watchCount (r : Row) : ℕ :=
  (if optGe r.rs_percentile 70 then 1 else 0) +
  (if optGe r.quality_score 40 then 1 else 0) +
  (if optGe r.composite_score 60 then 1 else 0)

/-- The claim's BUY gate: majority of the three buy conditions AND the
primary benchmark RS missing or positive. -/
def BuyGate (r : Row) : Prop :=
  2 ≤ buyCount r ∧
    (r.rs_vs_nifty50 = none ∨ ∃ v, r.rs_vs_nifty50 = some v ∧ 0 < v)

/-- The claim's WATCH majority. -/
def WatchGate (r : Row) : Prop := 2 ≤ watchCount r

/-- The fundamental fields `QualityAnalyzer._calculate_composite_quality_score`
reads (quality_analyzer.py 65-188); `none` is NaN. -/
structure Fundamentals where
  roe : Option ℚ
  roa : Option ℚ
  operating_margin : Option ℚ
  debt_equity : Option ℚ
  current_ratio : Option ℚ
  revenue_growth : Option ℚ
  earnings_growth : Option ℚ
  free_cash_flow : Option ℚ
deriving DecidableEq

/-- ROE points (quality_analyzer.py 87-96). -/
def roeScore (v : Option ℚ) : ℚ :=
  match v with
  | none => 0
  | some x =>
      if 20 ≤ x then 15 else if 15 ≤ x then 12
      else if 10 ≤ x then 8 else if 5 ≤ x then 4 else 0

/-- ROA points (quality_analyzer.py 99-108). -/
def roaScore (v : Option ℚ) : ℚ :=
  match v with
  | none => 0
  | some x =>
      if 10 ≤ x then 10 else if 7 ≤ x then 7
      else if 5 ≤ x then 5 else if 3 ≤ x then 3 else 0

/-- Operating-margin points (quality_analyzer.py 111-120). -/
def marginScore (v : Option ℚ) : ℚ :=
  match v with
  | none => 0
  | some x =>
      if 20 ≤ x then 15 else if 15 ≤ x then 12
      else if 10 ≤ x then 8 else if 5 ≤ x then 4 else 0

/-- Debt/equity points, lower is better (quality_analyzer.py 128-137). -/
def deScore (v : Option ℚ) : ℚ :=
  match v with
  | none => 0
  | some x =>
      if x ≤ 0.3 then 20 else if x ≤ 0.5 then 15
      else if x ≤ 1 then 10 else if x ≤ 2 then 5 else 0

/-- Current-ratio points (quality_analyzer.py 140-147). -/
def crScore (v : Option ℚ) : ℚ :=
  match v with
  | none => 0
  | some x => if 2 ≤ x then 10 else if 1.5 ≤ x then 7 else if 1 ≤ x then 5 else 0

/-- Revenue-growth points (quality_analyzer.py 155-164). -/
def revScore (v : Option ℚ) : ℚ :=
  match v with
  | none => 0
  | some x =>
      if 20 ≤ x then 10 else if 15 ≤ x then 8
      else if 10 ≤ x then 6 else if 5 ≤ x then 4 else 0

/-- Earnings-growth points (quality_analyzer.py 167-176). -/
def earnScore (v : Option ℚ) : ℚ :=
  match v with
  | none => 0
  | some x =>
      if 25 ≤ x then 10 else if 20 ≤ x then 8
      else if 15 ≤ x then 6 else if 10 ≤ x then 4 else 0

/-- Free-cash-flow points (quality_analyzer.py 181-186). -/
def fcfScore (v : Option ℚ) : ℚ :=
  match v with
  | none => 0
  | some x => if 0 < x then 10 else if -1000000000 < x then 5 else 0

/-- Embedding of `QualityAnalyzer._calculate_composite_quality_score`: the summed points
capped at 100 (quality_analyzer.py 81-188). -/
def qualityScore (f : Fundamentals) : ℚ :=
  min (roeScore f.roe + roaScore f.roa + marginScore f.operating_margin
      + deScore f.debt_equity + crScore f.current_ratio
      + revScore f.revenue_growth + earnScore f.earnings_growth
      + fcfScore f.free_cash_flow) 100

/-- The snapshot with every field missing. -/
def allMissing : Fundamentals := ⟨none, none, none, none, none, none, none, none⟩

/-- Embedding of `fetch_fundamentals` output: one snapshot per symbol. -/
def lookupFundamentals (funds : List (ℕ × Fundamentals)) (sym : ℕ) :
    Option Fundamentals :=
  (funds.find? (fun e => e.1 = sym)).map Prod.snd

/-- The `quality_score` column of the joined frame
(`rs_results.merge(quality_df, on='symbol', how='left')`,
quality_analyzer.py 40-61): present iff the symbol has a fundamentals row. -/
def mergedQualityScore (funds : List (ℕ × Fundamentals)) (sym : ℕ) : Option ℚ :=
  (lookupFundamentals funds sym).map qualityScore

/-- All-missing row except a defined RS percentile of 0 and a P/E of `p`. -/
def rowPE (p : ℚ) : Row :=
  ⟨some 0, none, none, none, none, 0, none, some p, none, none, none⟩

/-- Three-row filtered set with P/E column 1, 2, 4. -/
def dfPE : List Row := [rowPE 1, rowPE 2, rowPE 4]

theorem periodReturn_mkSeries (r : ℚ) : periodReturn (mkSeries r) 1 21 = some r := by
  have hlen : (mkSeries r).length = 23 := by simp [mkSeries]
  have harith : ((100 + r) / 100 - 1) * 100 = r := by field_simp
  simp [periodReturn, hlen, mkSeries, List.get?, harith]

theorem allReturns_univ5 : allReturns univ5 1 = [10, 5, 5, -2, 8] := by
  simp [allReturns, univ5, periodReturn_mkSeries]

theorem periodReturnOf_univ5_one : periodReturnOf univ5 1 1 21 = some 10 := by
  simp [periodReturnOf, lookupSeries, univ5, List.find?, periodReturn_mkSeries]

theorem periodReturnOf_univ5_two : periodReturnOf univ5 2 1 21 = some 5 := by
  simp [periodReturnOf, lookupSeries, univ5, List.find?, periodReturn_mkSeries]

/-- C1 counterexample: in the concrete 5-symbol universe with long-horizon
returns 10, 5, 5, −2, 8, a return=5 symbol receives percentile 20
(count strictly lower = 1 out of 5), not the 40 the claim asserts. -/
theorem C1_counterexample_tied_percentile :
    allReturns univ5 1 = [10, 5, 5, -2, 8] ∧
    rsPercentile univ5 1 2 = 20 ∧ rsPercentile univ5 1 2 ≠ 40 := by
  refine ⟨allReturns_univ5, ?_, ?_⟩ <;>
    rw [rsPercentile, periodReturnOf_univ5_two, allReturns_univ5] <;>
    norm_num [List.filter]

/-- C1 (amended): in any universe whose defined long-horizon returns are a
permutation of 10, 5, 5, −2, 8, a symbol with return 10 gets percentile
100×(4/5) = 80 and a symbol with return 5 gets 100×(1/5) = 20 (one member,
−2, is strictly lower; the tied 5s and the symbol itself are not counted). -/
theorem C1_percentile_duplicate_returns
    (u : List (ℕ × List (Option ℚ))) (lb s₁ s₂ : ℕ)
    (h₁ : periodReturnOf u s₁ lb 21 = some 10)
    (h₂ : periodReturnOf u s₂ lb 21 = some 5)
    (hall : (allReturns u lb).Perm [10, 5, 5, -2, 8]) :
    rsPercentile u lb s₁ = 80 ∧ rsPercentile u lb s₂ = 20 := by
  have hlen : (allReturns u lb).length = 5 := by
    rw [hall.length_eq]; rfl
  constructor
  · rw [rsPercentile, h₁]
    dsimp only
    have hc : ((allReturns u lb).filter (fun x => x < (10:ℚ))).length = 4 := by
      rw [← List.countP_eq_length_filter,
        hall.countP_eq (fun x => decide (x < (10:ℚ)))]
      norm_num [List.countP, List.countP.go]
    rw [hlen, hc]; norm_num
  · rw [rsPercentile, h₂]
    dsimp only
    have hc : ((allReturns u lb).filter (fun x => x < (5:ℚ))).length = 1 := by
      rw [← List.countP_eq_length_filter,
        hall.countP_eq (fun x => decide (x < (5:ℚ)))]
      norm_num [List.countP, List.countP.go]
    rw [hlen, hc]; norm_num

/-- Witness for C1: the concrete universe `univ5` satisfies the hypotheses. -/
theorem C1_percentile_duplicate_returns_witness :
    (allReturns univ5 1).Perm [10, 5, 5, -2, 8] ∧
    rsPercentile univ5 1 1 = 80 ∧ rsPercentile univ5 1 2 = 20 :=
  ⟨allReturns_univ5 ▸ List.Perm.refl _,
   C1_percentile_duplicate_returns univ5 1 1 2
     periodReturnOf_univ5_one periodReturnOf_univ5_two
     (allReturns_univ5 ▸ List.Perm.refl _)⟩

/-- C3 counterexample: on the two-close series 100, 0 with horizon 1 and no
skip, the code returns −100 (the zero END close is never tested), while the
claim as stated demands a missing result for a zero end close. -/
theorem C3_counterexample_zero_end_close :
    periodReturn [some 100, some 0] 1 0 = some (-100) ∧
    claimPeriodReturn [some 100, some 0] 1 0 = none := by
  constructor
  · show (if (2:ℕ) < 1 + 0 then none else _) = some (-100 : ℚ)
    norm_num [List.get?]
  · decide

/-- C3 (amended): `periodReturn` is missing exactly when the series has fewer
than `period + skip + 1` observations, either addressed close is NaN, or the
START close is zero; otherwise it is `(endPrice/startPrice − 1) × 100` with
the end close `skip` before the latest observation and the start close
`period` further back.  A zero end close with a nonzero start close yields
−100 rather than missing. -/
theorem matchJoinReturn (a b : Option (Option ℚ)) :
    (match a, b with
     | some (some startP), some (some endP) =>
         if startP = 0 then none else some ((endP / startP - 1) * 100)
     | _, _ => none) =
    (match a.join, b.join with
     | some sp, some ep => if sp = 0 then none else some ((ep / sp - 1) * 100)
     | _, _ => none) := by
  rcases a with _ | (_ | sp) <;> rcases b with _ | (_ | ep) <;> rfl

theorem C3_period_return_characterization
    (prices : List (Option ℚ)) (period skip : ℕ) :
    periodReturn prices period skip = amendedPeriodReturn prices period skip := by
  unfold periodReturn amendedPeriodReturn
  dsimp only
  by_cases h1 : prices.length < period + skip
  · rw [if_pos h1, if_pos (by omega)]
  · rw [if_neg h1]
    by_cases hs : 0 < skip
    · rw [if_pos hs]
      have hofs : (1 + skip) + period = period + skip + 1 := by omega
      rw [hofs]
      by_cases h2 : prices.length < period + skip + 1
      · rw [if_pos h2, if_pos h2]
      · rw [if_neg h2, if_neg h2,
          show prices.length - (period + skip + 1)
              = prices.length - 1 - skip - period from by omega,
          show prices.length - (1 + skip) = prices.length - 1 - skip from by omega]
        exact matchJoinReturn _ _
    · rw [if_neg hs]
      have hsz : skip = 0 := by omega
      subst hsz
      have hofs : 1 + period = period + 0 + 1 := by omega
      rw [hofs]
      by_cases h2 : prices.length < period + 0 + 1
      · rw [if_pos h2, if_pos h2]
      · rw [if_neg h2, if_neg h2,
          show prices.length - (period + 0 + 1)
              = prices.length - 1 - 0 - period from by omega,
          show prices.length - 1 = prices.length - 1 - 0 from by omega]
        exact matchJoinReturn _ _

/-- C2 counterexample: in a universe where no member has a defined
long-horizon return, a member symbol receives percentile 0, not the
claimed fallback 50 (the `return 0` guard on the symbol's own missing
return fires before the empty-universe fallback is ever reached). -/
theorem C2_counterexample_all_missing_default :
    allReturns univNone 252 = [] ∧
    rsPercentile univNone 252 0 = 0 ∧ rsPercentile univNone 252 0 ≠ 50 := by
  refine ⟨by decide, by decide, by decide⟩

/-- C2 (amended): when no member of the universe has a defined long-horizon
return, `rsPercentile` returns 0 (not 50) for every member symbol, because
the symbol's own return is then missing and the `return 0` branch precedes
the midpoint fallback; the fallback 50 is reachable only for a symbol whose
own return is defined while no key of the returns map yields one. -/
theorem C2_percentile_empty_universe
    (u : List (ℕ × List (Option ℚ))) (lb s : ℕ)
    (hnone : allReturns u lb = []) (hmem : s ∈ u.map Prod.fst) :
    rsPercentile u lb s = 0 := by
  obtain ⟨e, he, hk⟩ := List.mem_map.mp hmem
  have hfind : (u.find? (fun x => x.1 = s)).isSome := by
    rw [List.find?_isSome]
    exact ⟨e, he, by simp [hk]⟩
  obtain ⟨e', hfe⟩ := Option.isSome_iff_exists.mp hfind
  have he' : e' ∈ u := List.mem_of_find?_eq_some hfe
  have hret : periodReturn e'.2 lb 21 = none :=
    List.filterMap_eq_nil_iff.mp hnone e' he'
  have hof : periodReturnOf u s lb 21 = none := by
    rw [periodReturnOf, lookupSeries, hfe]
    exact hret
  rw [rsPercentile, hof]

/-- Witness for C2: the concrete universe `univNone` satisfies the hypotheses. -/
theorem C2_percentile_empty_universe_witness :
    allReturns univNone 252 = [] ∧ 0 ∈ univNone.map Prod.fst ∧
    rsPercentile univNone 252 0 = 0 :=
  ⟨by decide, by decide,
   C2_percentile_empty_universe univNone 252 0 (by decide) (by decide)⟩

/-- C10: `rsPercentile` always yields a number in [0,100] (it never fails and
never returns a missing value), and for a universe member whose long-horizon
return is defined — so that its own return is counted in the denominator but
never in the strictly-lower numerator — the percentile is at most
100×(n−1)/n where n is the number of members with a defined return; in
particular exactly 100 is never produced for such a symbol. -/
theorem C10_percentile_never_hundred
    (u : List (ℕ × List (Option ℚ))) (lb s : ℕ) :
    (0 ≤ rsPercentile u lb s ∧ rsPercentile u lb s ≤ 100) ∧
    (∀ r, periodReturnOf u s lb 21 = some r →
      rsPercentile u lb s ≤
          100 * (((allReturns u lb).length : ℚ) - 1) / ((allReturns u lb).length : ℚ) ∧
      rsPercentile u lb s < 100) := by
  constructor
  · rcases hpr : periodReturnOf u s lb 21 with _ | r
    · rw [rsPercentile, hpr]; norm_num
    · rw [rsPercentile, hpr]
      dsimp only
      by_cases h0 : (allReturns u lb).length = 0
      · rw [if_pos h0]; norm_num
      · rw [if_neg h0]
        have hnpos : (0:ℚ) < ((allReturns u lb).length : ℚ) := by
          exact_mod_cast Nat.pos_of_ne_zero h0
        have hcle : (((allReturns u lb).filter (fun x => x < r)).length : ℚ)
            ≤ ((allReturns u lb).length : ℚ) := by
          exact_mod_cast List.length_filter_le _ _
        constructor
        · positivity
        · rw [div_mul_eq_mul_div, div_le_iff₀ hnpos]
          nlinarith
  · intro r hpr
    have hser : ∃ e, u.find? (fun x => x.1 = s) = some e ∧
        periodReturn e.2 lb 21 = some r := by
      rw [periodReturnOf, lookupSeries] at hpr
      rcases hf : u.find? (fun x => x.1 = s) with _ | e
      · rw [hf] at hpr; simp at hpr
      · rw [hf] at hpr; exact ⟨e, hf, hpr⟩
    obtain ⟨e, hfe, hre⟩ := hser
    have hmemr : r ∈ allReturns u lb :=
      List.mem_filterMap.mpr ⟨e, List.mem_of_find?_eq_some hfe, hre⟩
    have hlt : ((allReturns u lb).filter (fun x => x < r)).length
        < (allReturns u lb).length := by
      rw [← List.countP_eq_length_filter]
      rcases lt_or_eq_of_le (List.countP_le_length (fun x => decide (x < r))
        (l := allReturns u lb)) with h | h
      · exact h
      · exfalso
        have hall := List.countP_eq_length.mp h r hmemr
        simp at hall
    have h0 : (allReturns u lb).length ≠ 0 := by omega
    have hnpos : (0:ℚ) < ((allReturns u lb).length : ℚ) := by
      exact_mod_cast Nat.pos_of_ne_zero h0
    have hcle : (((allReturns u lb).filter (fun x => x < r)).length : ℚ)
        ≤ ((allReturns u lb).length : ℚ) - 1 := by
      have h1 : ((allReturns u lb).filter (fun x => x < r)).length + 1
          ≤ (allReturns u lb).length := hlt
      have h2 : ((((allReturns u lb).filter (fun x => x < r)).length : ℚ) + 1)
          ≤ ((allReturns u lb).length : ℚ) := by exact_mod_cast h1
      linarith
    rw [rsPercentile, hpr]
    dsimp only
    rw [if_neg h0]
    constructor
    · rw [div_mul_eq_mul_div, div_le_div_iff₀ hnpos hnpos]
      nlinarith
    · rw [div_mul_eq_mul_div, div_lt_iff₀ hnpos]
      nlinarith

/-- Witness for C10: the return=10 symbol of `univ5` has a defined return and
its percentile 80 is below 100×(4/5) = 80 (with equality) and below 100. -/
theorem C10_percentile_never_hundred_witness :
    periodReturnOf univ5 1 1 21 = some 10 ∧ rsPercentile univ5 1 1 < 100 :=
  ⟨periodReturnOf_univ5_one,
   ((C10_percentile_never_hundred univ5 1 1).2 10 periodReturnOf_univ5_one).2⟩

theorem insertDesc_length (x : ℕ × ℚ) (l : List (ℕ × ℚ)) :
    (insertDesc x l).length = l.length + 1 := by
  induction l with
  | nil => rfl
  | cons h t ih =>
    rw [insertDesc]
    by_cases hc : h.2 ≤ x.2
    · rw [if_pos hc]; rfl
    · rw [if_neg hc]
      simp [ih]

theorem sortDesc_length (l : List (ℕ × ℚ)) : (sortDesc l).length = l.length := by
  induction l with
  | nil => rfl
  | cons h t ih => rw [sortDesc, insertDesc_length, ih]; rfl

theorem mem_insertDesc (x y : ℕ × ℚ) (l : List (ℕ × ℚ)) (hx : x ∈ l) :
    x ∈ insertDesc y l := by
  induction l with
  | nil => cases hx
  | cons h t ih =>
    rw [insertDesc]
    by_cases hc : h.2 ≤ y.2
    · rw [if_pos hc]
      exact List.mem_cons_of_mem _ hx
    · rw [if_neg hc]
      rcases List.mem_cons.mp hx with hx | hx
      · exact hx ▸ List.mem_cons_self _ _
      · exact List.mem_cons_of_mem _ (ih hx)

theorem self_mem_insertDesc (x : ℕ × ℚ) (l : List (ℕ × ℚ)) :
    x ∈ insertDesc x l := by
  induction l with
  | nil => exact List.mem_singleton.mpr rfl
  | cons a b ih =>
    rw [insertDesc]
    by_cases hc : a.2 ≤ x.2
    · rw [if_pos hc]; exact List.mem_cons_self _ _
    · rw [if_neg hc]
      exact List.mem_cons_of_mem _ ih

theorem mem_sortDesc (x : ℕ × ℚ) (l : List (ℕ × ℚ)) (hx : x ∈ l) :
    x ∈ sortDesc l := by
  induction l with
  | nil => cases hx
  | cons h t ih =>
    rw [sortDesc]
    rcases List.mem_cons.mp hx with hx | hx
    · exact hx ▸ self_mem_insertDesc _ _
    · exact mem_insertDesc _ _ _ (ih hx)

theorem rankScan_le (sym : ℕ) (l : List (ℕ × ℚ)) (i : ℕ)
    (hmem : ∃ p ∈ l, p.1 = sym) : rankScan sym l i ≤ i + l.length := by
  induction l generalizing i with
  | nil => obtain ⟨p, hp, _⟩ := hmem; cases hp
  | cons h t ih =>
    rw [rankScan]
    by_cases hc : h.1 = sym
    · rw [if_pos hc]
      simp
    · rw [if_neg hc]
      have hmem' : ∃ p ∈ t, p.1 = sym := by
        obtain ⟨p, hp, hps⟩ := hmem
        rcases List.mem_cons.mp hp with h1 | h1
        · exact absurd (h1 ▸ hps) hc
        · exact ⟨p, h1, hps⟩
      have := ih (i + 1) hmem'
      simp only [List.length_cons]
      omega

/-- C8 (amended): a symbol without a defined long-horizon return gets the
sentinel rank 999, and in every universe with FEWER THAN 999 members holding
a defined return that sentinel is strictly worse than the rank of every
symbol with a defined return.  (The unamended claim fails once 999 or more
members have defined returns, since real ranks then reach 999.) -/
theorem C8_rank_sentinel (u : List (ℕ × List (Option ℚ))) (lb s t : ℕ) (r : ℚ)
    (hs : periodReturnOf u s lb 21 = none)
    (ht : periodReturnOf u t lb 21 = some r)
    (hcount : (definedPairs u lb).length < 999) :
    rsRank u lb s = 999 ∧ rsRank u lb t < 999 := by
  constructor
  · rw [rsRank, hs]
  · rw [rsRank, ht]
    dsimp only
    have hser : ∃ e, u.find? (fun x => x.1 = t) = some e ∧
        periodReturn e.2 lb 21 = some r := by
      rw [periodReturnOf, lookupSeries] at ht
      rcases hf : u.find? (fun x => x.1 = t) with _ | e
      · rw [hf] at ht; simp at ht
      · rw [hf] at ht; exact ⟨e, hf, ht⟩
    obtain ⟨e, hfe, hre⟩ := hser
    have hkey : e.1 = t := by
      have := List.find?_some hfe
      simpa using this
    have hpair : (t, r) ∈ definedPairs u lb := by
      refine List.mem_filterMap.mpr ⟨e, List.mem_of_find?_eq_some hfe, ?_⟩
      rw [hre]
      simp [hkey]
    have hsorted : (t, r) ∈ sortDesc (definedPairs u lb) :=
      mem_sortDesc _ _ hpair
    have hscan := rankScan_le t (sortDesc (definedPairs u lb)) 0
      ⟨(t, r), hsorted, rfl⟩
    rw [sortDesc_length] at hscan
    omega

/-- Witness for C8: in `univ6`, symbol 0 (missing return) gets rank 999 and
symbol 1 (defined return) a real rank below 999. -/
theorem C8_rank_sentinel_witness :
    periodReturnOf univ6 0 1 21 = none ∧
    periodReturnOf univ6 1 1 21 = some 10 ∧
    (definedPairs univ6 1).length < 999 ∧
    rsRank univ6 1 0 = 999 ∧ rsRank univ6 1 1 < 999 := by
  have h0 : periodReturnOf univ6 0 1 21 = none := by decide
  have h1 : periodReturnOf univ6 1 1 21 = some 10 := by
    simp [periodReturnOf, lookupSeries, univ6, univ5, List.find?, periodReturn_mkSeries]
  have hc : (definedPairs univ6 1).length < 999 := by decide
  exact ⟨h0, h1, hc, C8_rank_sentinel univ6 1 0 1 10 h0 h1 hc⟩

theorem definedPairs_bigUniv :
    definedPairs bigUniv 1 = (List.range' 1 999).map bigPair := by
  rw [definedPairs, bigUniv, List.filterMap_cons_none rfl, List.filterMap_map]
  have hfun : ((fun e => (periodReturn e.2 1 21).map (fun r => (e.1, r)))
        ∘ (fun j : ℕ => (j, mkSeries (1000 - (j:ℚ)))))
      = some ∘ bigPair := by
    funext j
    simp [Function.comp, periodReturn_mkSeries, bigPair]
  rw [hfun, List.filterMap_eq_map]

theorem bigPairs_sorted :
    ((List.range' 1 999).map bigPair).Pairwise (fun a b => b.2 ≤ a.2) := by
  rw [List.pairwise_map]
  refine (List.pairwise_lt_range' 1 999).imp ?_
  intro a b hab
  dsimp only [bigPair]
  have hc : (a:ℚ) ≤ (b:ℚ) := by exact_mod_cast Nat.le_of_lt hab
  linarith

theorem sortDesc_eq_self (l : List (ℕ × ℚ))
    (h : l.Pairwise (fun a b => b.2 ≤ a.2)) : sortDesc l = l := by
  induction l with
  | nil => rfl
  | cons a t ih =>
    obtain ⟨hrel, htail⟩ := List.pairwise_cons.mp h
    rw [sortDesc, ih htail]
    cases t with
    | nil => rfl
    | cons b t2 => rw [insertDesc, if_pos (hrel b (List.mem_cons_self _ _))]

theorem rankScan_last_range (g : ℕ → ℚ) :
    ∀ (n st i : ℕ), 0 < n →
      rankScan (st + n) ((List.range' (st + 1) n).map (fun j => (j, g j))) i
        = i + n := by
  intro n
  induction n with
  | zero => intro st i h; omega
  | succ m ih =>
    intro st i _
    rw [List.range'_succ, List.map_cons, rankScan]
    by_cases hm : m = 0
    · subst hm
      rw [if_pos rfl]
    · rw [if_neg (by omega : ¬ (st + 1 = st + (m + 1)))]
      have := ih (st + 1) (i + 1) (Nat.pos_of_ne_zero hm)
      rw [show st + 1 + m = st + (m + 1) from by omega] at this
      rw [show st + 1 + 1 = st + 2 from by omega] at this
      rw [show st + 1 + 1 = st + 2 from by omega]
      omega

theorem find?_key_map_range' (f : ℕ → ℕ × List (Option ℚ))
    (hk : ∀ j, (f j).1 = j) :
    ∀ (n st t : ℕ), st ≤ t → t < st + n →
      ((List.range' st n).map f).find? (fun e => e.1 = t) = some (f t) := by
  intro n
  induction n with
  | zero => intro st t h1 h2; omega
  | succ m ih =>
    intro st t h1 h2
    rw [List.range'_succ, List.map_cons]
    by_cases hst : st = t
    · subst hst
      exact List.find?_cons_of_pos _ (by simp [hk])
    · rw [List.find?_cons_of_neg _ (by simp [hk]; omega)]
      exact ih (st + 1) t (by omega) (by omega)

theorem periodReturnOf_bigUniv_999 : periodReturnOf bigUniv 999 1 21 = some 1 := by
  rw [periodReturnOf, lookupSeries, bigUniv]
  rw [List.find?_cons_of_neg _ (by decide)]
  rw [find?_key_map_range' _ (fun j => rfl) 999 1 999 (by omega) (by omega)]
  simp only [Option.map_some']
  rw [periodReturn_mkSeries]
  norm_num

theorem rsRank_bigUniv_999 : rsRank bigUniv 1 999 = 999 := by
  rw [rsRank, periodReturnOf_bigUniv_999]
  dsimp only
  rw [definedPairs_bigUniv, sortDesc_eq_self _ bigPairs_sorted]
  have h := rankScan_last_range (fun j => (1000:ℚ) - j) 999 0 0 (by norm_num)
  simpa [bigPair] using h

/-- C8 counterexample: in a universe with exactly 999 members holding a
defined long-horizon return (descending returns 999..1) plus symbol 0 with
no data, the sentinel rank of symbol 0 is 999 while the worst defined
symbol, 999, also gets real rank 999 — the sentinel is NOT strictly greater
than every real rank, contradicting the claim's universal quantification. -/
theorem C8_counterexample_sentinel_not_greater :
    periodReturnOf bigUniv 0 1 21 = none ∧
    periodReturnOf bigUniv 999 1 21 = some 1 ∧
    rsRank bigUniv 1 0 = 999 ∧ rsRank bigUniv 1 999 = 999 ∧
    ¬ rsRank bigUniv 1 0 > rsRank bigUniv 1 999 := by
  have h0 : periodReturnOf bigUniv 0 1 21 = none := by
    rw [periodReturnOf, lookupSeries, bigUniv]
    rw [List.find?_cons_of_pos _ (by decide)]
    rfl
  have hz : rsRank bigUniv 1 0 = 999 := by rw [rsRank, h0]
  refine ⟨h0, periodReturnOf_bigUniv_999, hz, rsRank_bigUniv_999, ?_⟩
  rw [gt_iff_lt, hz, rsRank_bigUniv_999]
  omega

/-- The number of common dates, expressed on date sets as the spec does. -/
theorem commonRows_length_eq_common_dates (stock bench : List (ℕ × ℚ)) :
    (commonRows stock bench).length
      = ((stock.map Prod.fst).filter (fun d => d ∈ bench.map Prod.fst)).length := by
  rw [commonRows, List.filter_map, List.length_map]
  congr 1
  apply List.filter_congr
  intro e _
  rw [Function.comp]
  rw [Bool.eq_iff_iff]
  constructor
  · intro h
    obtain ⟨b, hfb⟩ := Option.isSome_iff_exists.mp h
    have hb : b ∈ bench := List.mem_of_find?_eq_some hfb
    have hk : b.1 = e.1 := by simpa using List.find?_some hfb
    simp only [decide_eq_true_eq]
    exact List.mem_map.mpr ⟨b, hb, hk⟩
  · intro h
    simp only [decide_eq_true_eq] at h
    obtain ⟨b, hb, hk⟩ := List.mem_map.mp h
    rw [List.find?_isSome]
    exact ⟨b, hb, by simp [hk]⟩

/-- C7: Mansfield RS is missing whenever the stock and benchmark share fewer
than 252 dates (regardless of the individual series lengths); with at least
252 common dates it is missing exactly when the trailing 252-day moving
average of the close ratio is zero at the latest date, and otherwise equals
((latest ratio / latest MA) − 1) × 100. -/
theorem C7_mansfield_rs_characterization (stock bench : List (ℕ × ℚ)) :
    (((stock.map Prod.fst).filter (fun d => d ∈ bench.map Prod.fst)).length < 252 →
      mansfieldRS stock bench = none) ∧
    (252 ≤ ((stock.map Prod.fst).filter (fun d => d ∈ bench.map Prod.fst)).length →
      (trailingMA252 (ratioSeries stock bench) = 0 →
        mansfieldRS stock bench = none) ∧
      (trailingMA252 (ratioSeries stock bench) ≠ 0 →
        mansfieldRS stock bench =
          some ((((ratioSeries stock bench).getLast?.getD 0)
            / trailingMA252 (ratioSeries stock bench) - 1) * 100))) := by
  rw [← commonRows_length_eq_common_dates]
  refine ⟨fun hlt => ?_, fun hge => ⟨fun hma => ?_, fun hma => ?_⟩⟩
  · rw [mansfieldRS, if_pos hlt]
  · rw [mansfieldRS, if_neg (by omega)]
    dsimp only
    rw [if_pos hma]
  · rw [mansfieldRS, if_neg (by omega)]
    dsimp only
    rw [if_neg hma]

theorem commonRows_stockW_benchW : commonRows stockW benchW = [] := by
  rw [commonRows, List.filter_eq_nil_iff]
  intro e he
  obtain ⟨d, _, hd⟩ := List.mem_map.mp he
  have hnone : benchW.find? (fun b => b.1 = e.1) = none := by
    rw [List.find?_eq_none]
    intro b hb
    obtain ⟨d2, _, hd2⟩ := List.mem_map.mp hb
    simp only [decide_eq_true_eq]
    rw [← hd2, ← hd]
    dsimp only
    omega
  rw [hnone]
  decide

/-- Witness for C7: two series of 252 rows each with disjoint date sets have
zero common dates, and Mansfield RS is missing. -/
theorem C7_mansfield_rs_characterization_witness :
    stockW.length = 252 ∧ benchW.length = 252 ∧
    ((stockW.map Prod.fst).filter (fun d => d ∈ benchW.map Prod.fst)).length < 252 ∧
    mansfieldRS stockW benchW = none := by
  have hlen : ((stockW.map Prod.fst).filter
      (fun d => d ∈ benchW.map Prod.fst)).length < 252 := by
    rw [← commonRows_length_eq_common_dates, commonRows_stockW_benchW]
    norm_num
  exact ⟨by simp [stockW], by simp [benchW], hlen,
    (C7_mansfield_rs_characterization stockW benchW).1 hlen⟩

theorem roeScore_bounds (v : Option ℚ) : 0 ≤ roeScore v ∧ roeScore v ≤ 15 := by
  cases v with
  | none => norm_num [roeScore]
  | some x => simp only [roeScore]; split_ifs <;> norm_num

theorem roaScore_bounds (v : Option ℚ) : 0 ≤ roaScore v ∧ roaScore v ≤ 10 := by
  cases v with
  | none => norm_num [roaScore]
  | some x => simp only [roaScore]; split_ifs <;> norm_num

theorem marginScore_bounds (v : Option ℚ) : 0 ≤ marginScore v ∧ marginScore v ≤ 15 := by
  cases v with
  | none => norm_num [marginScore]
  | some x => simp only [marginScore]; split_ifs <;> norm_num

theorem deScore_bounds (v : Option ℚ) : 0 ≤ deScore v ∧ deScore v ≤ 20 := by
  cases v with
  | none => norm_num [deScore]
  | some x => simp only [deScore]; split_ifs <;> norm_num

theorem crScore_bounds (v : Option ℚ) : 0 ≤ crScore v ∧ crScore v ≤ 10 := by
  cases v with
  | none => norm_num [crScore]
  | some x => simp only [crScore]; split_ifs <;> norm_num

theorem revScore_bounds (v : Option ℚ) : 0 ≤ revScore v ∧ revScore v ≤ 10 := by
  cases v with
  | none => norm_num [revScore]
  | some x => simp only [revScore]; split_ifs <;> norm_num

theorem earnScore_bounds (v : Option ℚ) : 0 ≤ earnScore v ∧ earnScore v ≤ 10 := by
  cases v with
  | none => norm_num [earnScore]
  | some x => simp only [earnScore]; split_ifs <;> norm_num

theorem fcfScore_bounds (v : Option ℚ) : 0 ≤ fcfScore v ∧ fcfScore v ≤ 10 := by
  cases v with
  | none => norm_num [fcfScore]
  | some x => simp only [fcfScore]; split_ifs <;> norm_num

/-- C6: for every symbol that has a fundamentals snapshot — whatever subset
of its fields is missing — the joined record's quality score is defined,
lies in [0,100], and is exactly 0 for an all-missing snapshot. -/
theorem C6_quality_score_total_bounded
    (funds : List (ℕ × Fundamentals)) (sym : ℕ) (f : Fundamentals)
    (h : lookupFundamentals funds sym = some f) :
    mergedQualityScore funds sym = some (qualityScore f) ∧
    0 ≤ qualityScore f ∧ qualityScore f ≤ 100 ∧
    (f = allMissing → qualityScore f = 0) := by
  refine ⟨by rw [mergedQualityScore, h]; rfl, ?_, min_le_right _ _, ?_⟩
  · have h1 := roeScore_bounds f.roe
    have h2 := roaScore_bounds f.roa
    have h3 := marginScore_bounds f.operating_margin
    have h4 := deScore_bounds f.debt_equity
    have h5 := crScore_bounds f.current_ratio
    have h6 := revScore_bounds f.revenue_growth
    have h7 := earnScore_bounds f.earnings_growth
    have h8 := fcfScore_bounds f.free_cash_flow
    rw [qualityScore, le_min_iff]
    constructor
    · linarith [h1.1, h2.1, h3.1, h4.1, h5.1, h6.1, h7.1, h8.1]
    · norm_num
  · intro hf
    subst hf
    norm_num [qualityScore, allMissing, roeScore, roaScore, marginScore,
      deScore, crScore, revScore, earnScore, fcfScore]

/-- Witness for C6: a one-row fundamentals table with an all-missing
snapshot joins to quality score 0. -/
theorem C6_quality_score_total_bounded_witness :
    lookupFundamentals [(0, allMissing)] 0 = some allMissing ∧
    mergedQualityScore [(0, allMissing)] 0 = some 0 := by
  have h : lookupFundamentals [(0, allMissing)] 0 = some allMissing := rfl
  have hthm := C6_quality_score_total_bounded [(0, allMissing)] 0 allMissing h
  exact ⟨h, by rw [hthm.1, hthm.2.2.2 rfl]⟩

theorem watchOrAvoid_cases (r : Row) :
    (watchOrAvoid r = "WATCH" ↔ WatchGate r) ∧
    (watchOrAvoid r = "AVOID" ↔ ¬ WatchGate r) := by
  rw [watchOrAvoid]
  by_cases hw : 2 ≤ (if optGe r.rs_percentile 70 then 1 else 0) +
      (if optGe r.quality_score 40 then 1 else 0) +
      (if optGe r.composite_score 60 then 1 else 0)
  · rw [if_pos hw]
    have hwg : WatchGate r := hw
    exact ⟨⟨fun _ => hwg, fun _ => rfl⟩,
           ⟨fun hcon => absurd hcon (by decide), fun hcon => absurd hwg hcon⟩⟩
  · rw [if_neg hw]
    have hwg : ¬ WatchGate r := hw
    exact ⟨⟨fun hcon => absurd hcon (by decide), fun hcon => absurd hcon hwg⟩,
           ⟨fun _ => hwg, fun _ => rfl⟩⟩

/-- C5: the signal is BUY iff at least 2 of the three buy conditions hold and
the primary benchmark RS is missing or positive; a row meeting the buy
majority with the benchmark present and non-positive falls through to the
WATCH test; WATCH iff not BUY and at least 2 of the three watch conditions
hold; AVOID otherwise.  (NaN comparisons are False throughout.) -/
theorem C5_signal_characterization (r : Row) :
    (generateSignal r = "BUY" ↔ BuyGate r) ∧
    (generateSignal r = "WATCH" ↔ ¬ BuyGate r ∧ WatchGate r) ∧
    (generateSignal r = "AVOID" ↔ ¬ BuyGate r ∧ ¬ WatchGate r) := by
  have hwa := watchOrAvoid_cases r
  have hBA : ¬ (("BUY":String) = "AVOID") := by decide
  have hBW : ¬ (("BUY":String) = "WATCH") := by decide
  have hcnt : buyCount r = (if optGe r.rs_percentile 85 then 1 else 0) +
      (if optGe r.quality_score 60 then 1 else 0) +
      (if optGe r.composite_score 75 then 1 else 0) := rfl
  rw [generateSignal]
  by_cases hb : 2 ≤ (if optGe r.rs_percentile 85 then 1 else 0) +
      (if optGe r.quality_score 60 then 1 else 0) +
      (if optGe r.composite_score 75 then 1 else 0)
  · rw [if_pos hb]
    have hbm : 2 ≤ buyCount r := by rw [hcnt]; exact hb
    rcases hn : r.rs_vs_nifty50 with _ | v
    · dsimp only
      have hgate : BuyGate r := ⟨hbm, Or.inl hn⟩
      refine ⟨⟨fun _ => hgate, fun _ => rfl⟩,
              ⟨fun hcon => absurd hcon hBW, fun hcon => absurd hgate hcon.1⟩,
              ⟨fun hcon => absurd hcon hBA, fun hcon => absurd hgate hcon.1⟩⟩
    · dsimp only
      by_cases hv : 0 < v
      · rw [if_pos hv]
        have hgate : BuyGate r := ⟨hbm, Or.inr ⟨v, hn, hv⟩⟩
        refine ⟨⟨fun _ => hgate, fun _ => rfl⟩,
                ⟨fun hcon => absurd hcon hBW, fun hcon => absurd hgate hcon.1⟩,
                ⟨fun hcon => absurd hcon hBA, fun hcon => absurd hgate hcon.1⟩⟩
      · rw [if_neg hv]
        have hgate : ¬ BuyGate r := by
          rintro ⟨-, hok | ⟨w, hw, hwpos⟩⟩
          · rw [hn] at hok; cases hok
          · rw [hn] at hw
            injection hw with hvw
            exact hv (hvw ▸ hwpos)
        have hnotbuy : watchOrAvoid r ≠ "BUY" := by
          rw [watchOrAvoid]
          split_ifs <;> decide
        refine ⟨⟨fun hcon => absurd hcon hnotbuy, fun hcon => absurd hcon hgate⟩,
                ⟨fun hcon => ⟨hgate, (hwa.1).mp hcon⟩, fun hcon => (hwa.1).mpr hcon.2⟩,
                ⟨fun hcon => ⟨hgate, (hwa.2).mp hcon⟩, fun hcon => (hwa.2).mpr hcon.2⟩⟩
  · rw [if_neg hb]
    have hgate : ¬ BuyGate r := by
      rintro ⟨hbm, -⟩
      rw [hcnt] at hbm
      exact hb hbm
    have hnotbuy : watchOrAvoid r ≠ "BUY" := by
      rw [watchOrAvoid]
      split_ifs <;> decide
    refine ⟨⟨fun hcon => absurd hcon hnotbuy, fun hcon => absurd hcon hgate⟩,
            ⟨fun hcon => ⟨hgate, (hwa.1).mp hcon⟩, fun hcon => (hwa.1).mpr hcon.2⟩,
            ⟨fun hcon => ⟨hgate, (hwa.2).mp hcon⟩, fun hcon => (hwa.2).mpr hcon.2⟩⟩

/-- C4 (amended): under RS + Value the composite of each row is
0.50×rs_percentile + 0.30×v + 0.20×quality (missing quality as 0), where v
is 100 MINUS the min–max normalization of pe_ratio itself over the current
filtered set — the reversed orientation of the raw P/E column, which differs
from the min–max normalization of 1/pe_ratio at interior points — and v
defaults to 50 when the row's P/E is missing, the column has none, or the
column is constant. -/
theorem C4_composite_rs_value (df : List Row) (r : Row) :
    compositeRSValue df r = r.rs_percentile.map (fun rs =>
      0.50 * rs + 0.30 * amendedValueTerm df r + 0.20 * (r.quality_score.getD 0)) := by
  rw [compositeRSValue, amendedValueTerm]
  rcases hpe : r.pe_ratio with _ | p
  · rfl
  · rcases hmn : listMin (df.filterMap fun x => x.pe_ratio) with _ | mn <;>
      rcases hmx : listMax (df.filterMap fun x => x.pe_ratio) with _ | mx <;>
      rw [hmn, hmx] <;> dsimp only <;> try rfl
    by_cases hc : mx - mn = 0
    · rw [if_pos hc, if_pos (by linarith [sub_eq_zero.mp hc] : mn = mx)]
      rfl
    · rw [if_neg hc, if_neg (fun he => hc (by rw [he, sub_self]))]
      rfl

/-- C4 counterexample: on the P/E column {1, 2, 4} with rs_percentile = 0 and
missing quality, the middle row's composite is 0.30×(100 − (2−1)/(4−1)×100)
= 20, while the claim's value term — min–max normalizing 1/pe over
{1, 1/2, 1/4} — gives 0.30×((1/2 − 1/4)/(1 − 1/4)×100) = 10. -/
theorem C4_counterexample_inverse_pe :
    compositeRSValue dfPE (rowPE 2) = some 20 ∧
    claimCompositeRSValue dfPE (rowPE 2) = some 10 ∧
    compositeRSValue dfPE (rowPE 2) ≠ claimCompositeRSValue dfPE (rowPE 2) := by
  have hpes : dfPE.filterMap (fun x => x.pe_ratio) = [1, 2, 4] := by decide
  have hmn : listMin [(1:ℚ), 2, 4] = some 1 := by
    rw [listMin]
    norm_num
  have hmx : listMax [(1:ℚ), 2, 4] = some 4 := by
    rw [listMax]
    norm_num
  have hinv : dfPE.filterMap (fun x => x.pe_ratio.map (fun p => 1 / p))
      = [1, 1/2, 1/4] := by
    norm_num [dfPE, rowPE, List.filterMap]
  have hmni : listMin [(1:ℚ), 1/2, 1/4] = some (1/4) := by
    rw [listMin]
    norm_num
  have hmxi : listMax [(1:ℚ), 1/2, 1/4] = some 1 := by
    rw [listMax]
    norm_num
  have h1 : compositeRSValue dfPE (rowPE 2) = some 20 := by
    rw [compositeRSValue]
    rw [hpes, hmn, hmx]
    rw [show (rowPE 2).pe_ratio = some 2 from rfl]
    dsimp only
    rw [if_neg (by norm_num : ¬ (4:ℚ) - 1 = 0)]
    rw [show (rowPE 2).rs_percentile = some 0 from rfl]
    rw [show (rowPE 2).quality_score = none from rfl]
    norm_num
  have h2 : claimCompositeRSValue dfPE (rowPE 2) = some 10 := by
    rw [claimCompositeRSValue, claimValueTerm]
    rw [hinv, hmni, hmxi]
    rw [show (rowPE 2).pe_ratio = some 2 from rfl]
    dsimp only
    rw [if_neg (by norm_num : ¬ (1:ℚ) - 1/4 = 0)]
    rw [show (rowPE 2).rs_percentile = some 0 from rfl]
    rw [show (rowPE 2).quality_score = none from rfl]
    norm_num
  refine ⟨h1, h2, ?_⟩
  rw [h1, h2]
  intro hcon
  injection hcon with hval
  norm_num at hval

theorem applyFilters_eq_filter_conj (p : Params) (df : List Row) :
    applyFilters p df = df.filter (fun r =>
      filter1 p r && filter2 p r && filter3 p r && filter4 p r && filter5 p r) := by
  rw [applyFilters]
  by_cases hq : qualityGate p = true
  · rw [if_pos hq]
    have hf2 : ∀ r, filter2 p r = (roeOk p r && deOk p r && marginOk p r) :=
      fun r => by rw [filter2, if_pos hq]
    by_cases hs : p.exclude_sectors.isEmpty = true
    · rw [if_pos hs]
      have hf4 : ∀ r : Row, filter4 p r = true := fun r => by rw [filter4, if_pos hs]
      simp only [List.filter_filter]
      apply List.filter_congr
      intro r _
      simp only [hf2, hf4, filter1, filter3, filter5]
      cases optGe r.rs_percentile p.rs_threshold <;>
        cases roeOk p r <;> cases deOk p r <;> cases marginOk p r <;>
        cases optGe r.market_cap p.min_mcap <;>
        cases r.current_price.isSome <;> cases r.rs_percentile.isSome <;> rfl
    · rw [if_neg hs]
      have hf4 : ∀ r : Row, filter4 p r = !(p.exclude_sectors.contains r.sector) :=
        fun r => by rw [filter4, if_neg hs]
      simp only [List.filter_filter]
      apply List.filter_congr
      intro r _
      simp only [hf2, hf4, filter1, filter3, filter5]
      cases optGe r.rs_percentile p.rs_threshold <;>
        cases roeOk p r <;> cases deOk p r <;> cases marginOk p r <;>
        cases optGe r.market_cap p.min_mcap <;>
        cases p.exclude_sectors.contains r.sector <;>
        cases r.current_price.isSome <;> cases r.rs_percentile.isSome <;> rfl
  · rw [if_neg hq]
    have hf2 : ∀ r : Row, filter2 p r = true := fun r => by rw [filter2, if_neg hq]
    by_cases hs : p.exclude_sectors.isEmpty = true
    · rw [if_pos hs]
      have hf4 : ∀ r : Row, filter4 p r = true := fun r => by rw [filter4, if_pos hs]
      simp only [List.filter_filter]
      apply List.filter_congr
      intro r _
      simp only [hf2, hf4, filter1, filter3, filter5]
      cases optGe r.rs_percentile p.rs_threshold <;>
        cases optGe r.market_cap p.min_mcap <;>
        cases r.current_price.isSome <;> cases r.rs_percentile.isSome <;> rfl
    · rw [if_neg hs]
      have hf4 : ∀ r : Row, filter4 p r = !(p.exclude_sectors.contains r.sector) :=
        fun r => by rw [filter4, if_neg hs]
      simp only [List.filter_filter]
      apply List.filter_congr
      intro r _
      simp only [hf2, hf4, filter1, filter3, filter5]
      cases optGe r.rs_percentile p.rs_threshold <;>
        cases optGe r.market_cap p.min_mcap <;>
        cases p.exclude_sectors.contains r.sector <;>
        cases r.current_price.isSome <;> cases r.rs_percentile.isSome <;> rfl

theorem applyFiltersReversed_eq_filter_conj (p : Params) (df : List Row) :
    applyFiltersReversed p df = df.filter (fun r =>
      filter1 p r && filter2 p r && filter3 p r && filter4 p r && filter5 p r) := by
  rw [applyFiltersReversed]
  simp only [List.filter_filter]
  apply List.filter_congr
  intro r _
  cases filter1 p r <;> cases filter2 p r <;> cases filter3 p r <;>
    cases filter4 p r <;> cases filter5 p r <;> rfl

/-- C9: the five screening filters are pure per-row predicates; the pipeline
equals one filter by their conjunction, and applying the filters in reverse
order yields exactly the same row list as the code's order 1–5. -/
theorem C9_filter_order_independent (p : Params) (df : List Row) :
    applyFilters p df = df.filter (fun r =>
      filter1 p r && filter2 p r && filter3 p r && filter4 p r && filter5 p r) ∧
    applyFiltersReversed p df = applyFilters p df := by
  refine ⟨applyFilters_eq_filter_conj p df, ?_⟩
  rw [applyFilters_eq_filter_conj p df, applyFiltersReversed_eq_filter_conj p df]

end RSQ
